import Mathlib

/-!
Shallow embedding of the retrieval-and-theme-synthesis pipeline of the
document research assistant backend (`backend/app/services/retrieval.py`,
`backend/app/services/theme_identification.py`,
`backend/app/services/embedding_index.py`,
`backend/app/services/llm_clients.py`, and the snippet-collection loops of
`backend/app/api/v1/query.py` / `backend/app/api/v1/theme.py`).

External capabilities (embedding provider, LLM answer extraction, LLM theme
summarization, the sklearn clustering call, the Qdrant vector-store client)
are modelled as explicit function parameters returning `Option` / `Except`
values, where `none` / `.error` stands for a raised exception.  Python floats
are modelled by an abstract scalar type `α`: the verified properties depend
only on vector lengths and on call success or failure, never on the numeric
values themselves.
-/

/-- A snippet record `{"doc_id": ..., "text": ..., "citation": ...}` as
assembled in `backend/app/api/v1/theme.py` (lines 65-69) and consumed by
`theme_identification.py`. -/
structure SnippetRecord where
  doc_id : String
  text : String
  citation : String
deriving DecidableEq

/-- A theme-summary record `{"theme_name": ..., "summary": ..., "citations": [...]}`
as produced by `generate_theme_summary` and by the fallback branches of
`identify_and_summarize_themes`. -/
structure Theme where
  theme_name : String
  summary : String
  citations : List String
deriving DecidableEq

/-- The dict parsed by `json.loads` inside `extract_answer_gemini`
(`llm_clients.py` line 221): each key may be absent, matching Python's
`data.get(...)` / `data[...]` access pattern. -/
structure ParsedAnswer where
  answer : Option String
  citation : Option String
deriving DecidableEq

/-- The dict `{"answer": ..., "citation": ...}` returned on every successful
path of `extract_answer_from_chunk` (both keys are always present; see all
return statements of `extract_answer_groq` / `extract_answer_gemini`). -/
structure AnswerCit where
  answer : String
  citation : String
deriving DecidableEq

/-- The `AnswerSnippet` response model (`app/models/query.py`): an extracted
answer text plus its citation string. -/
structure AnswerSnippet where
  text : String
  citation : String
deriving DecidableEq

deriving instance DecidableEq for Except

/-- Python's `str.upper()` restricted to the ASCII range, which is all the
sentinel comparison `data.get("answer", "").upper() == "NO_ANSWER"` needs
(character-level map, kept kernel-computable). -/
def pyUpper (s : String) : String :=
  String.mk (s.data.map Char.toUpper)

/-- `extract_answer_gemini` (`llm_clients.py` lines 192-232), modelled from
the `json.loads` result onward.  `parsed = .error _` stands for an exception
raised while producing or parsing the raw reply (both `except` arms at lines
222-227 return the sentinel dict).  After the `try` block, a reply whose
`answer` field upper-cases to `"NO_ANSWER"` is normalised to the sentinel;
otherwise `data["answer"]` / `data["citation"]` raise `KeyError` (modelled as
`.error ()`) when the key is missing, since those subscripts sit outside the
`try` block. -/
def extract_answer_gemini (parsed : Except Unit ParsedAnswer) : Except Unit AnswerCit :=
  match parsed with
  | .error _ => .ok ⟨"NO_ANSWER", ""⟩
  | .ok data =>
    if pyUpper (data.answer.getD "") = "NO_ANSWER" then .ok ⟨"NO_ANSWER", ""⟩
    else
      match data.answer, data.citation with
      | some a, some c => .ok ⟨a, c⟩
      | _, _ => .error ()

/-- The per-result filter of `process_single_doc` (`query.py` lines 64-71):
an exception gathered by `asyncio.gather(..., return_exceptions=True)` is
logged and skipped; a result whose answer text is falsy (empty) or equal to
`"NO_ANSWER"` is skipped; anything else becomes an `AnswerSnippet`. -/
def toSnippet (r : Except Unit AnswerCit) : Option AnswerSnippet :=
  match r with
  | .error _ => none
  | .ok a => if a.answer ≠ "" ∧ a.answer ≠ "NO_ANSWER" then some ⟨a.answer, a.citation⟩ else none

/-- The snippet-collection loop of `process_single_doc` (`query.py` lines
64-71) applied to the ordered list of gathered extraction results. -/
def snippetFilter (results : List (Except Unit AnswerCit)) : List AnswerSnippet :=
  results.filterMap toSnippet

/-- The snippet-collection loop of `process_doc_snippets` (`theme.py` lines
60-69): the same filter, but tagging each surviving snippet with the source
`doc_id` to build a `SnippetRecord`. -/
def themeSnippetFilter (doc_id : String) (results : List (Except Unit AnswerCit)) :
    List SnippetRecord :=
  results.filterMap fun r =>
    match r with
    | .error _ => none
    | .ok a =>
      if a.answer ≠ "" ∧ a.answer ≠ "NO_ANSWER" then some ⟨doc_id, a.answer, a.citation⟩
      else none

/-- Spec-side predicate: a gathered extraction result that counts as a
genuine answer (well-formed, non-empty, not the `"NO_ANSWER"` sentinel). -/
def isGenuine (r : Except Unit AnswerCit) : Bool :=
  match r with
  | .error _ => false
  | .ok a => a.answer != "" && a.answer != "NO_ANSWER"

example : snippetFilter [.error (), .ok ⟨"x", "c"⟩, .ok ⟨"NO_ANSWER", ""⟩] = [⟨"x", "c"⟩] := by
  decide

example : extract_answer_gemini (.ok ⟨some "no_answer", some "c"⟩) = .ok ⟨"NO_ANSWER", ""⟩ := by
  decide

/-!
MD5 and the deterministic point id.

`deterministic_uuid` (`embedding_index.py` lines 17-23) builds the key
`f"{doc_id}_pg{page_num}_para{para_idx}"`, hashes it with `hashlib.md5`, and
renders the 32-hex-digit digest as a dashed UUID string via
`str(uuid.UUID(hexdigest))`.  `hashlib.md5` is external library code, so it is
embedded here as the RFC 1321 algorithm over byte lists (bytes and 32-bit
words are `Nat` with explicit `% 2^32`), operating on the UTF-8 bytes of the
key exactly as `key.encode("utf-8")` does.
-/

/-- Reduce a machine word to 32 bits. -/
def w32 (n : Nat) : Nat := n % 4294967296

/-- 32-bit left rotation of a word `x < 2^32` by `s ≤ 32` bits. -/
def rotl32 (x s : Nat) : Nat := w32 (x * 2 ^ s + x / 2 ^ (32 - s))

/-- UTF-8 encoding of one character, as `bytes` values 0-255. -/
def utf8Bytes (c : Char) : List Nat :=
  let n := c.toNat
  if n < 128 then [n]
  else if n < 2048 then [192 + n / 64, 128 + n % 64]
  else if n < 65536 then [224 + n / 4096, 128 + n / 64 % 64, 128 + n % 64]
  else [240 + n / 262144, 128 + n / 4096 % 64, 128 + n / 64 % 64, 128 + n % 64]

/-- UTF-8 bytes of a string: Python's `s.encode("utf-8")`. -/
def strBytes (s : String) : List Nat :=
  (s.data.map utf8Bytes).flatten

/-- `count` little-endian bytes of a natural number. -/
def leBytes (count x : Nat) : List Nat :=
  (List.range count).map fun i => x / 2 ^ (8 * i) % 256

/-- The 64 per-operation constants of MD5 (RFC 1321). -/
def md5K : List Nat :=
  [0xd76aa478, 0xe8c7b756, 0x242070db, 0xc1bdceee,
   0xf57c0faf, 0x4787c62a, 0xa8304613, 0xfd469501,
   0x698098d8, 0x8b44f7af, 0xffff5bb1, 0x895cd7be,
   0x6b901122, 0xfd987193, 0xa679438e, 0x49b40821,
   0xf61e2562, 0xc040b340, 0x265e5a51, 0xe9b6c7aa,
   0xd62f105d, 0x02441453, 0xd8a1e681, 0xe7d3fbc8,
   0x21e1cde6, 0xc33707d6, 0xf4d50d87, 0x455a14ed,
   0xa9e3e905, 0xfcefa3f8, 0x676f02d9, 0x8d2a4c8a,
   0xfffa3942, 0x8771f681, 0x6d9d6122, 0xfde5380c,
   0xa4beea44, 0x4bdecfa9, 0xf6bb4b60, 0xbebfbc70,
   0x289b7ec6, 0xeaa127fa, 0xd4ef3085, 0x04881d05,
   0xd9d4d039, 0xe6db99e5, 0x1fa27cf8, 0xc4ac5665,
   0xf4292244, 0x432aff97, 0xab9423a7, 0xfc93a039,
   0x655b59c3, 0x8f0ccc92, 0xffeff47d, 0x85845dd1,
   0x6fa87e4f, 0xfe2ce6e0, 0xa3014314, 0x4e0811a1,
   0xf7537e82, 0xbd3af235, 0x2ad7d2bb, 0xeb86d391]

/-- The 64 per-operation left-rotation amounts of MD5. -/
def md5S : List Nat :=
  [7, 12, 17, 22, 7, 12, 17, 22, 7, 12, 17, 22, 7, 12, 17, 22,
   5, 9, 14, 20, 5, 9, 14, 20, 5, 9, 14, 20, 5, 9, 14, 20,
   4, 11, 16, 23, 4, 11, 16, 23, 4, 11, 16, 23, 4, 11, 16, 23,
   6, 10, 15, 21, 6, 10, 15, 21, 6, 10, 15, 21, 6, 10, 15, 21]

/-- Message-word index used by operation `i`. -/
def md5G (i : Nat) : Nat :=
  if i < 16 then i
  else if i < 32 then (5 * i + 1) % 16
  else if i < 48 then (3 * i + 5) % 16
  else 7 * i % 16

/-- The round function (F, G, H, I) used by operation `i`; bitwise NOT on 32
bits is complementation against `2^32 - 1`. -/
def md5F (i b c d : Nat) : Nat :=
  if i < 16 then b &&& c ||| (4294967295 - w32 b) &&& d
  else if i < 32 then d &&& b ||| (4294967295 - w32 d) &&& c
  else if i < 48 then b ^^^ c ^^^ d
  else c ^^^ (b ||| (4294967295 - w32 d))

/-- The 16 little-endian 32-bit words of one 64-byte block. -/
def blockWords (block : List Nat) : List Nat :=
  (List.range 16).map fun j =>
    block.getD (4 * j) 0 + 256 * block.getD (4 * j + 1) 0 +
      65536 * block.getD (4 * j + 2) 0 + 16777216 * block.getD (4 * j + 3) 0

/-- One of the 64 MD5 operations on the state `(a, b, c, d)`. -/
def md5Op (M : List Nat) (st : Nat × Nat × Nat × Nat) (i : Nat) : Nat × Nat × Nat × Nat :=
  let f := md5F i st.2.1 st.2.2.1 st.2.2.2
  let tmp := w32 (st.1 + f + md5K.getD i 0 + M.getD (md5G i) 0)
  (st.2.2.2, w32 (st.2.1 + rotl32 tmp (md5S.getD i 0)), st.2.1, st.2.2.1)

/-- Process one 64-byte block into the running digest state. -/
def md5Block (st : Nat × Nat × Nat × Nat) (block : List Nat) : Nat × Nat × Nat × Nat :=
  let M := blockWords block
  let r := (List.range 64).foldl (md5Op M) st
  (w32 (st.1 + r.1), w32 (st.2.1 + r.2.1), w32 (st.2.2.1 + r.2.2.1), w32 (st.2.2.2 + r.2.2.2))

/-- MD5 padding: a `0x80` byte, zeros up to 56 mod 64, then the original bit
length as a 64-bit little-endian quantity. -/
def md5Pad (msg : List Nat) : List Nat :=
  msg ++ [128] ++ List.replicate ((119 - msg.length % 64) % 64) 0 ++
    leBytes 8 (8 * msg.length % 18446744073709551616)

/-- The 16-byte MD5 digest of a byte list. -/
def md5Digest (msg : List Nat) : List Nat :=
  let padded := md5Pad msg
  let st := ((List.range (padded.length / 64)).map
      fun i => (padded.drop (64 * i)).take 64).foldl md5Block
    (0x67452301, 0xefcdab89, 0x98badcfe, 0x10325476)
  leBytes 4 st.1 ++ leBytes 4 st.2.1 ++ leBytes 4 st.2.2.1 ++ leBytes 4 st.2.2.2

/-- Lowercase hex digit. -/
def hexChar (n : Nat) : Char :=
  if n < 10 then Char.ofNat (48 + n) else Char.ofNat (87 + n)

/-- `hashlib.md5(...).hexdigest()`: the 32-character lowercase hex rendering
of the digest. -/
def md5Hex (msg : List Nat) : String :=
  String.mk (((md5Digest msg).map fun b => [hexChar (b / 16), hexChar (b % 16)]) |>.flatten)

/-- `str(uuid.UUID(hex))` for a 32-hex-digit string: dashes inserted in the
8-4-4-4-12 pattern. -/
def uuidFormat (hex : String) : String :=
  let cs := hex.data
  String.mk (cs.take 8 ++ '-' :: (cs.drop 8).take 4 ++ '-' :: (cs.drop 12).take 4 ++
    '-' :: (cs.drop 16).take 4 ++ '-' :: cs.drop 20)

/-- `deterministic_uuid` (`embedding_index.py` lines 17-23). -/
def deterministic_uuid (doc_id : String) (page_num para_idx : Nat) : String :=
  uuidFormat (md5Hex (strBytes
    (doc_id ++ "_pg" ++ toString page_num ++ "_para" ++ toString para_idx)))

/-!
Vector-store indexing (`embedding_index.py` lines 41-98).

The Qdrant client is modelled by its observable trace: whether the collection
was ensured, and the list of point batches passed to `client.upsert` (a batch
that Qdrant then rejects still counts as sent, matching the `try`/`except`
around the upsert call).  The embedding provider is a parameter
`embed : String → Option (List α)`, with `none` for a raised exception; on
success `get_embedding_vector` already yields a flat list of floats
(`llm_clients.py` lines 69-90 unwrap a singleton batch and coerce every entry
with `float`), so the re-normalisation at `embedding_index.py` lines 63-65 is
the identity on it and is not repeated here.
-/

/-- A chunk dict with the keys read by `index_chunks_in_vector_store`
(lines 55-59). -/
structure ChunkIn where
  doc_id : String
  page_num : Nat
  paragraph_index : Nat
  chunk_text : String
deriving DecidableEq

/-- The fixed collection dimension (`embedding_index.py` line 15). -/
def VECTOR_DIMENSION : Nat := 768

/-- A point dict as built at `embedding_index.py` lines 76-85. -/
structure Point (α : Type) where
  id : String
  vector : List α
  payload : ChunkIn
deriving DecidableEq

/-- The point construction of `embedding_index.py` lines 75-85: the id comes
from `deterministic_uuid` on the chunk's identity triple only. -/
def mkPoint {α : Type} (c : ChunkIn) (vector : List α) : Point α :=
  ⟨deterministic_uuid c.doc_id c.page_num c.paragraph_index, vector, c⟩

/-- Observable effect trace of one `index_chunks_in_vector_store` call. -/
structure IndexTrace (α : Type) where
  ensured : Bool
  batches : List (List (Point α))
deriving DecidableEq

/-- One iteration of the loop at `embedding_index.py` lines 55-98 over the
enumerated chunk list, threading `(buffer_points, upserted batches)`.
An embedding failure or a dimension mismatch skips the chunk (`continue`),
leaving both the buffer and the batch trace unchanged; otherwise the point is
appended and the buffer is flushed when it reaches `batch_size` or the loop
is at the last index. -/
def indexStep {α : Type} (n batch_size : Nat) (embed : String → Option (List α))
    (st : List (Point α) × List (List (Point α))) (p : Nat × ChunkIn) :
    List (Point α) × List (List (Point α)) :=
  match embed p.2.chunk_text with
  | none => st
  | some vector =>
    if vector.length ≠ VECTOR_DIMENSION then st
    else
      let buffer := st.1 ++ [mkPoint p.2 vector]
      if batch_size ≤ buffer.length ∨ p.1 = n - 1 then ([], st.2 ++ [buffer])
      else (buffer, st.2)

/-- `index_chunks_in_vector_store` (`embedding_index.py` lines 41-98) as its
effect trace: an empty chunk list returns before `ensure_collection_exists`
or any client construction (lines 47-49). -/
def index_chunks_in_vector_store {α : Type} (embed : String → Option (List α))
    (chunks : List ChunkIn) (batch_size : Nat) : IndexTrace α :=
  if chunks.isEmpty then ⟨false, []⟩
  else ⟨true, (chunks.enum.foldl (indexStep chunks.length batch_size embed) ([], [])).2⟩

/-!
Retrieval (`retrieval.py` lines 17-81).

`get_query_embedding` (`llm_clients.py` lines 93-101) returns a flat float
list on success, so the re-flattening at `retrieval.py` lines 40-42 is the
identity on it and is not repeated.  The Qdrant search is a parameter
returning the list of hits, each hit's payload possibly `None` (`hit.payload
or {}` at line 68) and each payload key possibly absent.
-/

/-- A search-hit payload with every key optional, matching the
`payload.get(..., default)` reads at `retrieval.py` lines 69-72. -/
structure HitPayload where
  doc_id : Option String
  chunk_text : Option String
  page_num : Option Nat
  paragraph_index : Option Nat
deriving DecidableEq

/-- The hit-to-chunk mapping of `retrieval.py` lines 67-78: missing text and
positions default, and a missing or empty payload `doc_id` falls back to the
requested `doc_id` (`payload.get("doc_id", "") or doc_id`). -/
def hitToChunk (doc_id : String) (payload : HitPayload) : ChunkIn :=
  let s := payload.doc_id.getD ""
  ⟨if s = "" then doc_id else s,
   payload.page_num.getD 0,
   payload.paragraph_index.getD 0,
   payload.chunk_text.getD ""⟩

/-- `retrieve_top_k_chunks` (`retrieval.py` lines 17-81).  `embedQ` models
`get_query_embedding` and `search` models `qdrant_client.search`, each with
`none` for a raised exception; both exception handlers return `[]`. -/
def retrieve_top_k_chunks {α : Type} (embedQ : String → Option (List α))
    (search : List α → String → Nat → Option (List (Option HitPayload)))
    (question doc_id : String) (top_k : Nat) : List ChunkIn :=
  match embedQ question with
  | none => []
  | some query_embedding =>
    match search query_embedding doc_id top_k with
    | none => []
    | some hits => hits.map fun h => hitToChunk doc_id (h.getD ⟨none, none, none, none⟩)

/-!
Theme clustering and synthesis (`theme_identification.py`).

`get_embedding_vector` is the parameter `embed` (`none` = raised exception);
the sklearn `AgglomerativeClustering(n_clusters=k).fit_predict` call is the
parameter `clusterAlg`, returning one cluster label per embedded row
(`none` = the clustering step raised).  `generate_theme_summary` is the
parameter `summarize` (`none` = raised exception).  Python's dict with
`setdefault(label, []).append(idx)` is an insertion-ordered association list.
-/

/-- An ASCII whitespace character, as stripped by Python's `str.strip()`. -/
def isPySpace (c : Char) : Bool :=
  c == ' ' || c == '\t' || c == '\n' || c == '\r' || c == '\x0b' || c == '\x0c'

/-- Python's `str.strip()` (restricted to ASCII whitespace, which is all the
repository's snippet texts exercise): drop whitespace from both ends
(character-level, kept kernel-computable). -/
def pyStrip (s : String) : String :=
  String.mk (((s.data.dropWhile isPySpace).reverse.dropWhile isPySpace).reverse)

/-- The embed-and-collect loop of `cluster_snippets` (`theme_identification.py`
lines 29-39), carrying the running `enumerate` index: snippets whose stripped
text is empty are skipped, embedding is applied to the stripped text, and an
embedding failure skips the snippet.  The result pairs each surviving
original index with its embedding, in input order. -/
def validEntriesFrom {α : Type} (embed : String → Option (List α)) :
    Nat → List SnippetRecord → List (Nat × List α)
  | _, [] => []
  | i, s :: rest =>
    if pyStrip s.text = "" then validEntriesFrom embed (i + 1) rest
    else
      match embed (pyStrip s.text) with
      | some e => (i, e) :: validEntriesFrom embed (i + 1) rest
      | none => validEntriesFrom embed (i + 1) rest

/-- The `(valid_indices, valid_embeddings)` pairs of `cluster_snippets`,
starting the enumeration at index 0. -/
def validEntries {α : Type} (embed : String → Option (List α))
    (snippets : List SnippetRecord) : List (Nat × List α) :=
  validEntriesFrom embed 0 snippets

/-- `valid_indices`: original positions of the successfully embedded
snippets. -/
def validIndices {α : Type} (embed : String → Option (List α))
    (snippets : List SnippetRecord) : List Nat :=
  (validEntries embed snippets).map Prod.fst

/-- `valid_embeddings`: the embeddings of the surviving snippets. -/
def validEmbeddings {α : Type} (embed : String → Option (List α))
    (snippets : List SnippetRecord) : List (List α) :=
  (validEntries embed snippets).map Prod.snd

/-- `clusters.setdefault(cluster_label, []).append(orig_idx)`
(`theme_identification.py` line 59) on an insertion-ordered association
list. -/
def addPair (m : List (Nat × List Nat)) (label idx : Nat) : List (Nat × List Nat) :=
  match m with
  | [] => [(label, [idx])]
  | (l, xs) :: rest =>
    if l = label then (l, xs ++ [idx]) :: rest
    else (l, xs) :: addPair rest label idx

/-- The cluster-accumulation loop of `theme_identification.py` lines 56-59
over `(label, original index)` pairs. -/
def buildClusters (pairs : List (Nat × Nat)) : List (Nat × List Nat) :=
  pairs.foldl (fun m p => addPair m p.1 p.2) []

/-- Python dict access `clusters_map[label]` on the association list. -/
def lookupC (m : List (Nat × List Nat)) (l : Nat) : List Nat :=
  match m with
  | [] => []
  | (l', xs) :: rest => if l' = l then xs else lookupC rest l

/-- `cluster_snippets` (`theme_identification.py` lines 12-61), with
`k = min(n_clusters, len(valid_embeddings))`. -/
def cluster_snippets {α : Type} (embed : String → Option (List α))
    (clusterAlg : List (List α) → Nat → Option (List Nat))
    (snippets : List SnippetRecord) (n_clusters : Nat) : List (Nat × List Nat) :=
  if (validEmbeddings embed snippets).isEmpty then []
  else if min n_clusters (validEmbeddings embed snippets).length ≤ 1 then
    [(0, validIndices embed snippets)]
  else
    match clusterAlg (validEmbeddings embed snippets)
        (min n_clusters (validEmbeddings embed snippets).length) with
    | none => [(0, validIndices embed snippets)]
    | some labels => buildClusters (labels.zip (validIndices embed snippets))

/-- The cluster-count heuristic of `identify_and_summarize_themes` line 85:
`min(max(1, n_snip // 3), 4)`. -/
def nClustersFor (n_snip : Nat) : Nat :=
  min (max 1 (n_snip / 3)) 4

/-- The member-snippet gathering of `identify_and_summarize_themes` lines
101-102: `[snippets[i] for i in clusters_map[label]]`.  The produced indices
are always in range, so the out-of-range default is never read. -/
def memberSnippets (cmap : List (Nat × List Nat)) (snippets : List SnippetRecord)
    (label : Nat) : List SnippetRecord :=
  (lookupC cmap label).map fun i => snippets.getD i ⟨"", "", ""⟩

/-- The per-cluster body of the loop at `identify_and_summarize_themes` lines
100-118: the generated theme summary, or — when `generate_theme_summary`
raises — the fallback theme with name `f"Theme {label + 1}"`, empty summary,
and the member snippets' citations. -/
def themeOf (summarize : List SnippetRecord → Nat → String → Option Theme)
    (cmap : List (Nat × List Nat)) (snippets : List SnippetRecord)
    (question : String) (label : Nat) : Theme :=
  let members := memberSnippets cmap snippets label
  match summarize members (label + 1) question with
  | some t => t
  | none => ⟨"Theme " ++ toString (label + 1), "", members.map (·.citation)⟩

/-- The all-snippets fallback theme of `identify_and_summarize_themes` lines
88-96, returned when the cluster mapping is empty. -/
def fallbackAllTheme (snippets : List SnippetRecord) : Theme :=
  ⟨"Theme 1", "", snippets.map (·.citation)⟩

/-- `identify_and_summarize_themes` (`theme_identification.py` lines 64-120);
`sorted(clusters_map.keys())` is insertion sort by `≤` over the key list. -/
def identify_and_summarize_themes {α : Type} (embed : String → Option (List α))
    (clusterAlg : List (List α) → Nat → Option (List Nat))
    (summarize : List SnippetRecord → Nat → String → Option Theme)
    (snippets : List SnippetRecord) (question : String) : List Theme :=
  if snippets.length = 0 then []
  else if (cluster_snippets embed clusterAlg snippets (nClustersFor snippets.length)).isEmpty then
    [fallbackAllTheme snippets]
  else
    (List.insertionSort (· ≤ ·)
        ((cluster_snippets embed clusterAlg snippets (nClustersFor snippets.length)).map
          Prod.fst)).map
      (themeOf summarize (cluster_snippets embed clusterAlg snippets (nClustersFor snippets.length))
        snippets question)

/-!
Supporting lemmas for the snippet-extraction stage.
-/

theorem toSnippet_isSome_eq_isGenuine (r : Except Unit AnswerCit) :
    (toSnippet r).isSome = isGenuine r := by
  cases r with
  | error e => rfl
  | ok a =>
    by_cases h1 : a.answer = "" <;> by_cases h2 : a.answer = "NO_ANSWER" <;>
      simp [toSnippet, isGenuine, h1, h2]

theorem length_snippetFilter (rs : List (Except Unit AnswerCit)) :
    (snippetFilter rs).length = rs.countP isGenuine := by
  induction rs with
  | nil => rfl
  | cons r rs ih =>
    rw [snippetFilter, List.filterMap_cons, List.countP_cons]
    cases hr : toSnippet r with
    | none =>
      have := toSnippet_isSome_eq_isGenuine r
      rw [hr] at this
      simp [snippetFilter] at ih
      simp [ih, ← this]
    | some s =>
      have := toSnippet_isSome_eq_isGenuine r
      rw [hr] at this
      simp [snippetFilter] at ih
      simp [ih, ← this]

/-- C2: the snippet-extraction stage keeps exactly one snippet per genuine
(well-formed, non-sentinel) extractor result: a raised extraction call is
excluded without affecting the snippets contributed by its siblings; a
well-formed result whose answer upper-cases to the `"NO_ANSWER"` sentinel is
filtered out as a non-match (not an error); and on the three-chunk extractor
results `"text A"`, `"NO_ANSWER"`, `"text B"` exactly the two snippets for
`"text A"` and `"text B"` survive. -/
theorem snippet_extraction_isolation :
    (∀ (rs₁ rs₂ : List (Except Unit AnswerCit)) (e : Unit),
        snippetFilter (rs₁ ++ .error e :: rs₂) = snippetFilter (rs₁ ++ rs₂))
    ∧ (∀ rs, (snippetFilter rs).length = rs.countP isGenuine)
    ∧ (∀ d : ParsedAnswer, pyUpper (d.answer.getD "") = "NO_ANSWER" →
        toSnippet (extract_answer_gemini (.ok d)) = none)
    ∧ (∀ c₁ c₂ c₃ : String,
        snippetFilter
          (([⟨some "text A", some c₁⟩, ⟨some "NO_ANSWER", some c₂⟩,
              ⟨some "text B", some c₃⟩] : List ParsedAnswer).map
            fun d => extract_answer_gemini (.ok d)) =
          [⟨"text A", c₁⟩, ⟨"text B", c₃⟩]) := by
  refine ⟨?_, length_snippetFilter, ?_, ?_⟩
  · intro rs₁ rs₂ e
    simp [snippetFilter, List.filterMap_append, List.filterMap_cons, toSnippet]
  · intro d h
    simp [extract_answer_gemini, h, toSnippet]
  · intro c₁ c₂ c₃
    rfl

theorem snippet_extraction_isolation_witness :
    toSnippet (extract_answer_gemini (.ok ⟨some "no_answer", some "c"⟩)) = none :=
  snippet_extraction_isolation.2.2.1 ⟨some "no_answer", some "c"⟩ (by decide)

/-- C9: every snippet surviving the extraction filter — on the query path and
on the theme path alike — has non-empty answer text. -/
theorem snippet_text_nonempty :
    (∀ rs s, s ∈ snippetFilter rs → s.text ≠ "")
    ∧ (∀ d rs s, s ∈ themeSnippetFilter d rs → s.text ≠ "") := by
  constructor
  · intro rs s hs
    obtain ⟨r, -, hr⟩ := List.mem_filterMap.mp hs
    cases r with
    | error e => simp [toSnippet] at hr
    | ok a =>
      simp only [toSnippet] at hr
      split at hr
      · cases hr
        simpa using (by assumption : a.answer ≠ "" ∧ a.answer ≠ "NO_ANSWER").1
      · cases hr
  · intro d rs s hs
    obtain ⟨r, -, hr⟩ := List.mem_filterMap.mp hs
    cases r with
    | error e => simp at hr
    | ok a =>
      simp only at hr
      split at hr
      · cases hr
        simpa using (by assumption : a.answer ≠ "" ∧ a.answer ≠ "NO_ANSWER").1
      · cases hr

theorem snippet_text_nonempty_witness :
    (⟨"x", "c"⟩ : AnswerSnippet).text ≠ "" :=
  snippet_text_nonempty.1 [.ok ⟨"x", "c"⟩] ⟨"x", "c"⟩ (by decide)

/-- C6: when the query-embedding step raises, and likewise when the vector
search raises, `retrieve_top_k_chunks` returns the empty list instead of
propagating the exception. -/
theorem retrieve_empty_on_error {α : Type} (embedQ : String → Option (List α))
    (search : List α → String → Nat → Option (List (Option HitPayload)))
    (question doc_id : String) (top_k : Nat) :
    (embedQ question = none →
      retrieve_top_k_chunks embedQ search question doc_id top_k = [])
    ∧ (∀ qe, embedQ question = some qe → search qe doc_id top_k = none →
        retrieve_top_k_chunks embedQ search question doc_id top_k = []) := by
  constructor
  · intro h
    simp [retrieve_top_k_chunks, h]
  · intro qe h hs
    simp [retrieve_top_k_chunks, h, hs]

theorem retrieve_empty_on_error_witness :
    retrieve_top_k_chunks (α := Int) (fun _ => none) (fun _ _ _ => some []) "q" "d" 3 = [] :=
  (retrieve_empty_on_error (fun _ => none) (fun _ _ _ => some []) "q" "d" 3).1 rfl

/-- C10: indexing an empty chunk list is a complete no-op on the trace — the
collection is not ensured and no batch is ever sent to the store. -/
theorem index_empty_noop {α : Type} (embed : String → Option (List α)) (batch_size : Nat) :
    index_chunks_in_vector_store embed [] batch_size = ⟨false, []⟩ := by
  rfl

/-!
Supporting lemmas for the dimension invariant of the indexing loop.
-/

theorem indexStep_preserves_dim {α : Type} (n bs : Nat) (embed : String → Option (List α))
    (st : List (Point α) × List (List (Point α))) (p : Nat × ChunkIn)
    (h1 : ∀ q ∈ st.1, q.vector.length = VECTOR_DIMENSION)
    (h2 : ∀ b ∈ st.2, ∀ q ∈ b, q.vector.length = VECTOR_DIMENSION) :
    (∀ q ∈ (indexStep n bs embed st p).1, q.vector.length = VECTOR_DIMENSION)
    ∧ ∀ b ∈ (indexStep n bs embed st p).2, ∀ q ∈ b, q.vector.length = VECTOR_DIMENSION := by
  unfold indexStep
  cases embed p.2.chunk_text with
  | none => exact ⟨h1, h2⟩
  | some vector =>
    by_cases hlen : vector.length ≠ VECTOR_DIMENSION
    · simpa [hlen] using ⟨h1, h2⟩
    · push_neg at hlen
      have hbuf : ∀ q ∈ st.1 ++ [mkPoint p.2 vector], q.vector.length = VECTOR_DIMENSION := by
        intro q hq
        rcases List.mem_append.mp hq with h | h
        · exact h1 q h
        · rcases List.mem_singleton.mp h with rfl
          exact hlen
      by_cases hfl : bs ≤ (st.1 ++ [mkPoint p.2 vector]).length ∨ p.1 = n - 1
      · simp only [hlen]
        simp only [ne_eq, not_true_eq_false, if_neg, ite_false]
        simp only [if_pos hfl]
        refine ⟨by simp, ?_⟩
        intro b hb
        rcases List.mem_append.mp hb with h | h
        · exact h2 b h
        · rcases List.mem_singleton.mp h with rfl
          exact hbuf
      · simp only [hlen]
        simp only [ne_eq, not_true_eq_false, if_neg, ite_false]
        simp only [if_neg hfl]
        exact ⟨hbuf, h2⟩

theorem foldl_indexStep_dim {α : Type} (n bs : Nat) (embed : String → Option (List α))
    (l : List (Nat × ChunkIn)) (st : List (Point α) × List (List (Point α)))
    (h1 : ∀ q ∈ st.1, q.vector.length = VECTOR_DIMENSION)
    (h2 : ∀ b ∈ st.2, ∀ q ∈ b, q.vector.length = VECTOR_DIMENSION) :
    ∀ b ∈ (l.foldl (indexStep n bs embed) st).2, ∀ q ∈ b,
      q.vector.length = VECTOR_DIMENSION := by
  induction l generalizing st with
  | nil => exact h2
  | cons p l ih =>
    rw [List.foldl_cons]
    obtain ⟨g1, g2⟩ := indexStep_preserves_dim n bs embed st p h1 h2
    exact ih _ g1 g2

/-- C7: no point whose vector length differs from the collection dimension
(768) is ever included in a batch sent to the vector store, and a chunk whose
embedding has the wrong length is skipped with the loop state unchanged
rather than crashing the batch. -/
theorem index_dimension_invariant {α : Type} (embed : String → Option (List α))
    (chunks : List ChunkIn) (batch_size : Nat) :
    (∀ batch ∈ (index_chunks_in_vector_store embed chunks batch_size).batches,
      ∀ point ∈ batch, point.vector.length = VECTOR_DIMENSION)
    ∧ ∀ (n : Nat) (st : List (Point α) × List (List (Point α))) (i : Nat) (c : ChunkIn)
        (v : List α), embed c.chunk_text = some v → v.length ≠ VECTOR_DIMENSION →
        indexStep n batch_size embed st (i, c) = st := by
  constructor
  · intro batch hb point hp
    unfold index_chunks_in_vector_store at hb
    by_cases hc : chunks.isEmpty
    · simp [hc] at hb
    · simp only [hc, if_neg, Bool.false_eq_true, ite_false] at hb
      exact foldl_indexStep_dim chunks.length batch_size embed chunks.enum ([], [])
        (by simp) (by simp) batch hb point hp
  · intro n st i c v hv hlen
    unfold indexStep
    simp [hv, hlen]

theorem index_dimension_invariant_witness :
    indexStep 1 16 (fun _ => some [(0 : Int)]) ([], []) (0, ⟨"doc", 1, 2, "t"⟩) = ([], []) :=
  (index_dimension_invariant (fun _ => some [(0 : Int)]) [⟨"doc", 1, 2, "t"⟩] 16).2
    1 ([], []) 0 ⟨"doc", 1, 2, "t"⟩ [(0 : Int)] rfl (by decide)

set_option maxRecDepth 1000000 in
/-- C8: the stable point id is a function of the identity triple alone — two
chunks agreeing on `(doc_id, page_num, paragraph_index)` receive the same id
regardless of text or vector — and distinct triples are observed to receive
distinct ids (checked on concrete triples that permute and vary the
components). -/
theorem point_id_deterministic :
    (∀ (α : Type) (c₁ c₂ : ChunkIn) (v₁ v₂ : List α), c₁.doc_id = c₂.doc_id →
        c₁.page_num = c₂.page_num → c₁.paragraph_index = c₂.paragraph_index →
        (mkPoint c₁ v₁).id = (mkPoint c₂ v₂).id)
    ∧ deterministic_uuid "doc" 1 2 ≠ deterministic_uuid "doc" 2 1
    ∧ deterministic_uuid "doc" 1 2 ≠ deterministic_uuid "doc" 1 3
    ∧ deterministic_uuid "doc" 1 2 ≠ deterministic_uuid "docx" 1 2 := by
  refine ⟨?_, ?_, ?_, ?_⟩
  · intro α c₁ c₂ v₁ v₂ h1 h2 h3
    simp only [mkPoint, h1, h2, h3]
  · decide
  · decide
  · decide

theorem point_id_deterministic_witness :
    (mkPoint ⟨"d", 1, 2, "text a"⟩ ([] : List Int)).id =
      (mkPoint ⟨"d", 1, 2, "text b"⟩ [(0 : Int)]).id :=
  point_id_deterministic.1 Int ⟨"d", 1, 2, "text a"⟩ ⟨"d", 1, 2, "text b"⟩ [] [(0 : Int)]
    rfl rfl rfl

/-!
Supporting lemmas for the theme pipeline.
-/

theorem validEntriesFrom_nil_of_embed_none {α : Type} {embed : String → Option (List α)}
    {l : List SnippetRecord} (h : ∀ s ∈ l, embed (pyStrip s.text) = none) (i : Nat) :
    validEntriesFrom embed i l = [] := by
  induction l generalizing i with
  | nil => rfl
  | cons s rest ih =>
    have hs := h s (List.mem_cons_self s rest)
    have htail : ∀ x ∈ rest, embed (pyStrip x.text) = none := fun x hx =>
      h x (List.mem_cons_of_mem s hx)
    unfold validEntriesFrom
    by_cases ht : pyStrip s.text = "" <;> simp [ht, hs, ih htail]

/-- C4: when every snippet is unembeddable (so the clusterer returns the empty
mapping), `identify_and_summarize_themes` still returns exactly one synthetic
fallback theme with default name `"Theme 1"`, empty summary, and all input
snippets' citations verbatim in input order. -/
theorem unembeddable_fallback {α : Type} (embed : String → Option (List α))
    (clusterAlg : List (List α) → Nat → Option (List Nat))
    (summarize : List SnippetRecord → Nat → String → Option Theme)
    (snippets : List SnippetRecord) (question : String)
    (hne : snippets ≠ [])
    (hemb : ∀ s ∈ snippets, embed (pyStrip s.text) = none) :
    (∀ n_clusters, cluster_snippets embed clusterAlg snippets n_clusters = [])
    ∧ identify_and_summarize_themes embed clusterAlg summarize snippets question =
        [⟨"Theme 1", "", snippets.map (·.citation)⟩] := by
  have hent : validEntries embed snippets = [] :=
    validEntriesFrom_nil_of_embed_none hemb 0
  have hcl : ∀ n, cluster_snippets embed clusterAlg snippets n = [] := by
    intro n
    unfold cluster_snippets
    simp [validEmbeddings, hent]
  refine ⟨hcl, ?_⟩
  have hlen : snippets.length ≠ 0 := by
    simpa [List.length_eq_zero] using hne
  unfold identify_and_summarize_themes
  simp [hlen, hcl, fallbackAllTheme]

theorem unembeddable_fallback_witness :
    identify_and_summarize_themes (α := Int) (fun _ => none) (fun _ _ => none)
      (fun _ _ _ => none) [⟨"d", "x", "c"⟩] "q" = [⟨"Theme 1", "", ["c"]⟩] :=
  (unembeddable_fallback (fun _ => none) (fun _ _ => none) (fun _ _ _ => none)
    [⟨"d", "x", "c"⟩] "q" (by decide) (by intro s _; rfl)).2

/-!
Association-list lemmas for the cluster-accumulation loop.
-/

/-- The original indices that the accumulation loop assigns to label `l`. -/
def memberOf (pairs : List (Nat × Nat)) (l : Nat) : List Nat :=
  pairs.filterMap fun p => if p.1 = l then some p.2 else none

theorem mem_memberOf {pairs : List (Nat × Nat)} {l i : Nat} :
    i ∈ memberOf pairs l ↔ (l, i) ∈ pairs := by
  constructor
  · intro h
    obtain ⟨⟨a, b⟩, hp, hif⟩ := List.mem_filterMap.mp h
    split at hif
    · next ha =>
      obtain rfl : b = i := Option.some.inj hif
      rw [← ha]
      exact hp
    · cases hif
  · intro h
    exact List.mem_filterMap.mpr ⟨(l, i), h, by simp⟩

theorem lookupC_addPair (m : List (Nat × List Nat)) (label idx l : Nat) :
    lookupC (addPair m label idx) l =
      if l = label then lookupC m l ++ [idx] else lookupC m l := by
  induction m with
  | nil =>
    rcases eq_or_ne l label with rfl | h
    · simp [addPair, lookupC]
    · simp [addPair, lookupC, h, Ne.symm h]
  | cons q rest ih =>
    obtain ⟨l', xs⟩ := q
    rcases eq_or_ne l' label with rfl | h1
    · rcases eq_or_ne l' l with rfl | h2
      · simp [addPair, lookupC]
      · simp [addPair, lookupC, h2, Ne.symm h2]
    · rcases eq_or_ne l' l with rfl | h2
      · simp [addPair, lookupC, h1, Ne.symm h1]
      · simp [addPair, lookupC, h1, h2, ih]

theorem keys_addPair (m : List (Nat × List Nat)) (label idx : Nat) :
    (addPair m label idx).map Prod.fst =
      if label ∈ m.map Prod.fst then m.map Prod.fst else m.map Prod.fst ++ [label] := by
  induction m with
  | nil => simp [addPair]
  | cons q rest ih =>
    obtain ⟨l', xs⟩ := q
    rcases eq_or_ne l' label with rfl | h1
    · simp [addPair]
    · by_cases h2 : label ∈ rest.map Prod.fst <;>
        simp [addPair, h1, Ne.symm h1, ih, h2]

theorem nodup_keys_addPair {m : List (Nat × List Nat)} {label idx : Nat}
    (h : (m.map Prod.fst).Nodup) : ((addPair m label idx).map Prod.fst).Nodup := by
  rw [keys_addPair]
  by_cases h2 : label ∈ m.map Prod.fst
  · simpa [h2] using h
  · simp [h2, List.nodup_append, h]

theorem lookupC_foldl (pairs : List (Nat × Nat)) (m : List (Nat × List Nat)) (l : Nat) :
    lookupC (pairs.foldl (fun acc p => addPair acc p.1 p.2) m) l =
      lookupC m l ++ memberOf pairs l := by
  induction pairs generalizing m with
  | nil => simp [memberOf]
  | cons p ps ih =>
    rw [List.foldl_cons, ih, lookupC_addPair]
    rcases eq_or_ne p.1 l with h | h
    · simp [memberOf, List.filterMap_cons, h]
    · simp [memberOf, List.filterMap_cons, h, Ne.symm h]

theorem lookupC_buildClusters (pairs : List (Nat × Nat)) (l : Nat) :
    lookupC (buildClusters pairs) l = memberOf pairs l := by
  simpa [buildClusters, lookupC] using lookupC_foldl pairs [] l

theorem mem_keys_foldl (pairs : List (Nat × Nat)) (m : List (Nat × List Nat)) (l : Nat) :
    (l ∈ (pairs.foldl (fun acc p => addPair acc p.1 p.2) m).map Prod.fst) ↔
      l ∈ m.map Prod.fst ∨ l ∈ pairs.map Prod.fst := by
  induction pairs generalizing m with
  | nil => simp
  | cons p ps ih =>
    rw [List.foldl_cons, ih, keys_addPair]
    by_cases h : p.1 ∈ m.map Prod.fst
    · simp only [h, if_true, List.map_cons, List.mem_cons]
      constructor
      · tauto
      · rintro (hm | rfl | hp) <;> tauto
    · simp only [h, if_false, List.mem_append, List.mem_singleton, List.map_cons,
        List.mem_cons]
      tauto

theorem mem_keys_buildClusters (pairs : List (Nat × Nat)) (l : Nat) :
    l ∈ (buildClusters pairs).map Prod.fst ↔ l ∈ pairs.map Prod.fst := by
  simpa [buildClusters] using mem_keys_foldl pairs [] l

theorem nodup_keys_foldl (pairs : List (Nat × Nat)) (m : List (Nat × List Nat))
    (h : (m.map Prod.fst).Nodup) :
    ((pairs.foldl (fun acc p => addPair acc p.1 p.2) m).map Prod.fst).Nodup := by
  induction pairs generalizing m with
  | nil => exact h
  | cons p ps ih =>
    rw [List.foldl_cons]
    exact ih _ (nodup_keys_addPair h)

theorem nodup_keys_buildClusters (pairs : List (Nat × Nat)) :
    ((buildClusters pairs).map Prod.fst).Nodup :=
  nodup_keys_foldl pairs [] (by simp)

theorem lookupC_eq_of_mem {m : List (Nat × List Nat)} {l : Nat} {xs : List Nat}
    (hm : (l, xs) ∈ m) (hnd : (m.map Prod.fst).Nodup) : lookupC m l = xs := by
  induction m with
  | nil => cases hm
  | cons q rest ih =>
    obtain ⟨l', ys⟩ := q
    rw [List.map_cons, List.nodup_cons] at hnd
    rcases List.mem_cons.mp hm with heq | hm'
    · cases heq
      simp [lookupC]
    · have hl : l' ≠ l := by
        rintro rfl
        exact hnd.1 (List.mem_map.mpr ⟨(l', xs), hm', rfl⟩)
      simp only [lookupC, if_neg hl]
      exact ih hm' hnd.2

theorem pair_mem_of_mem_keys {m : List (Nat × List Nat)} {l : Nat}
    (h : l ∈ m.map Prod.fst) : (l, lookupC m l) ∈ m := by
  induction m with
  | nil => simp at h
  | cons q rest ih =>
    obtain ⟨l', ys⟩ := q
    rcases eq_or_ne l' l with rfl | hne
    · simp [lookupC]
    · simp only [List.map_cons, List.mem_cons] at h
      have h' : l ∈ rest.map Prod.fst := by
        rcases h with h1 | h1
        · exact absurd h1.symm hne
        · exact h1
      simp only [lookupC, if_neg hne]
      exact List.mem_cons_of_mem _ (ih h')

theorem fst_eq_of_mem_nodup_snd {l : List (Nat × Nat)} {a b c : Nat}
    (ha : (a, c) ∈ l) (hb : (b, c) ∈ l) (h : (l.map Prod.snd).Nodup) : a = b := by
  induction l with
  | nil => cases ha
  | cons p rest ih =>
    rw [List.map_cons, List.nodup_cons] at h
    rcases List.mem_cons.mp ha with h1 | h1 <;> rcases List.mem_cons.mp hb with h2 | h2
    · rw [← h1] at h2
      exact ((Prod.mk.injEq _ _ _ _).mp h2).1.symm
    · cases h1
      exact absurd (List.mem_map_of_mem Prod.snd h2) h.1
    · cases h2
      exact absurd (List.mem_map_of_mem Prod.snd h1) h.1
    · exact ih h1 h2 h.2

/-!
Lemmas about the embed-and-collect loop.
-/

theorem validEntriesFrom_fst_lb {α : Type} {embed : String → Option (List α)}
    {l : List SnippetRecord} :
    ∀ {i : Nat} {p : Nat × List α}, p ∈ validEntriesFrom embed i l → i ≤ p.1 := by
  induction l with
  | nil =>
    intro i p h
    simp [validEntriesFrom] at h
  | cons s rest ih =>
    intro i p h
    by_cases ht : pyStrip s.text = ""
    · rw [validEntriesFrom, if_pos ht] at h
      exact le_trans (Nat.le_succ i) (ih h)
    · rw [validEntriesFrom, if_neg ht] at h
      cases he : embed (pyStrip s.text) with
      | some e =>
        rw [he] at h
        rcases List.mem_cons.mp h with rfl | h'
        · exact le_refl i
        · exact le_trans (Nat.le_succ i) (ih h')
      | none =>
        rw [he] at h
        exact le_trans (Nat.le_succ i) (ih h)

theorem validEntriesFrom_fst_sorted {α : Type} (embed : String → Option (List α))
    (l : List SnippetRecord) :
    ∀ i, List.Sorted (· < ·) ((validEntriesFrom embed i l).map Prod.fst) := by
  induction l with
  | nil =>
    intro i
    simp [validEntriesFrom]
  | cons s rest ih =>
    intro i
    by_cases ht : pyStrip s.text = ""
    · rw [validEntriesFrom, if_pos ht]
      exact ih (i + 1)
    · rw [validEntriesFrom, if_neg ht]
      cases he : embed (pyStrip s.text) with
      | some e =>
        rw [List.map_cons, List.sorted_cons]
        refine ⟨?_, ih (i + 1)⟩
        intro b hb
        obtain ⟨p, hp, rfl⟩ := List.mem_map.mp hb
        exact lt_of_lt_of_le (Nat.lt_succ_self i) (validEntriesFrom_fst_lb hp)
      | none => exact ih (i + 1)

theorem validIndices_nodup {α : Type} (embed : String → Option (List α))
    (snippets : List SnippetRecord) : (validIndices embed snippets).Nodup :=
  (validEntriesFrom_fst_sorted embed snippets 0).nodup

theorem mem_validEntriesFrom {α : Type} {embed : String → Option (List α)}
    {l : List SnippetRecord} :
    ∀ {i j : Nat} {e : List α}, (j, e) ∈ validEntriesFrom embed i l ↔
      ∃ d s, j = i + d ∧ l.get? d = some s ∧ pyStrip s.text ≠ "" ∧
        embed (pyStrip s.text) = some e := by
  induction l with
  | nil =>
    intro i j e
    simp [validEntriesFrom]
  | cons s rest ih =>
    intro i j e
    by_cases ht : pyStrip s.text = ""
    · rw [validEntriesFrom, if_pos ht, ih]
      constructor
      · rintro ⟨d, s', rfl, hget, hs, he⟩
        exact ⟨d + 1, s', by omega, by simpa using hget, hs, he⟩
      · rintro ⟨d, s', hj, hget, hs, he⟩
        cases d with
        | zero =>
          rw [List.get?_cons_zero, Option.some.injEq] at hget
          subst hget
          exact absurd ht hs
        | succ d =>
          exact ⟨d, s', by omega, by simpa using hget, hs, he⟩
    · cases he0 : embed (pyStrip s.text) with
      | none =>
        rw [validEntriesFrom, if_neg ht, he0, ih]
        constructor
        · rintro ⟨d, s', rfl, hget, hs, he⟩
          exact ⟨d + 1, s', by omega, by simpa using hget, hs, he⟩
        · rintro ⟨d, s', hj, hget, hs, he⟩
          cases d with
          | zero =>
            rw [List.get?_cons_zero, Option.some.injEq] at hget
            subst hget
            rw [he0] at he
            cases he
          | succ d =>
            exact ⟨d, s', by omega, by simpa using hget, hs, he⟩
      | some e0 =>
        rw [validEntriesFrom, if_neg ht, he0]
        rw [List.mem_cons, ih]
        constructor
        · rintro (heq | ⟨d, s', rfl, hget, hs, he⟩)
          · obtain ⟨rfl, rfl⟩ := Prod.mk.injEq _ _ _ _ |>.mp heq
            exact ⟨0, s, by omega, rfl, ht, he0⟩
          · exact ⟨d + 1, s', by omega, by simpa using hget, hs, he⟩
        · rintro ⟨d, s', hj, hget, hs, he⟩
          cases d with
          | zero =>
            left
            rw [List.get?_cons_zero, Option.some.injEq] at hget
            subst hget
            rw [he0, Option.some.injEq] at he
            subst he
            have : j = i := by omega
            subst this
            rfl
          | succ d =>
            right
            exact ⟨d, s', by omega, by simpa using hget, hs, he⟩

theorem mem_validIndices {α : Type} {embed : String → Option (List α)}
    {snippets : List SnippetRecord} {i : Nat} :
    i ∈ validIndices embed snippets ↔
      ∃ s, snippets.get? i = some s ∧ pyStrip s.text ≠ "" ∧
        (embed (pyStrip s.text)).isSome := by
  rw [validIndices, validEntries, List.mem_map]
  constructor
  · rintro ⟨⟨j, e⟩, hm, rfl⟩
    rw [mem_validEntriesFrom] at hm
    obtain ⟨d, s, hj, hget, hs, he⟩ := hm
    have hd : d = j := by omega
    subst hd
    exact ⟨s, hget, hs, by rw [he]; rfl⟩
  · rintro ⟨s, hget, hs, he⟩
    obtain ⟨e, he'⟩ := Option.isSome_iff_exists.mp he
    exact ⟨(i, e), mem_validEntriesFrom.mpr ⟨i, s, by omega, hget, hs, he'⟩, rfl⟩

theorem validEmbeddings_length {α : Type} (embed : String → Option (List α))
    (snippets : List SnippetRecord) :
    (validEmbeddings embed snippets).length = (validIndices embed snippets).length := by
  simp [validEmbeddings, validIndices]

theorem validEmbeddings_isEmpty_iff {α : Type} (embed : String → Option (List α))
    (snippets : List SnippetRecord) :
    (validEmbeddings embed snippets).isEmpty = true ↔ validIndices embed snippets = [] := by
  simp [validEmbeddings, validIndices, List.isEmpty_iff]

/-!
Shape analysis of `cluster_snippets`.
-/

theorem nodup_keys_cluster_snippets {α : Type} (embed : String → Option (List α))
    (clusterAlg : List (List α) → Nat → Option (List Nat))
    (snippets : List SnippetRecord) (n_clusters : Nat) :
    ((cluster_snippets embed clusterAlg snippets n_clusters).map Prod.fst).Nodup := by
  unfold cluster_snippets
  split
  · simp
  · split
    · simp
    · split
      · simp
      · exact nodup_keys_buildClusters _

theorem cluster_snippets_cases {α : Type} (embed : String → Option (List α))
    (clusterAlg : List (List α) → Nat → Option (List Nat))
    (snippets : List SnippetRecord) (n_clusters : Nat)
    (hlen : ∀ embs k ls, clusterAlg embs k = some ls → ls.length = embs.length) :
    (cluster_snippets embed clusterAlg snippets n_clusters = []
        ∧ validIndices embed snippets = [])
    ∨ cluster_snippets embed clusterAlg snippets n_clusters =
        [(0, validIndices embed snippets)]
    ∨ ∃ labels : List Nat, labels.length = (validIndices embed snippets).length ∧
        cluster_snippets embed clusterAlg snippets n_clusters =
          buildClusters (labels.zip (validIndices embed snippets)) := by
  by_cases hE : (validEmbeddings embed snippets).isEmpty = true
  · left
    refine ⟨?_, (validEmbeddings_isEmpty_iff embed snippets).mp hE⟩
    unfold cluster_snippets
    simp [hE]
  · by_cases hk : min n_clusters (validEmbeddings embed snippets).length ≤ 1
    · right; left
      unfold cluster_snippets
      simp [hE, hk]
    · cases halg : clusterAlg (validEmbeddings embed snippets)
          (min n_clusters (validEmbeddings embed snippets).length) with
      | none =>
        right; left
        unfold cluster_snippets
        simp [hE, hk, halg]
      | some labels =>
        right; right
        refine ⟨labels, ?_, ?_⟩
        · rw [hlen _ _ _ halg, validEmbeddings_length]
        · unfold cluster_snippets
          simp [hE, hk, halg]

/-- C3 (amended): the cluster mapping partitions exactly the successfully
embedded snippets' original indices (pairwise-disjoint lists whose union is
that index set); whenever at least one snippet embedded successfully and
`k = min(nClusters, #embedded) ≤ 1`, the result is the single cluster
`{0: all embedded indices}` and the clustering algorithm is not consulted;
and when the clustering step itself raises, the same single-cluster fallback
is returned.  (When no snippet embeds successfully the mapping is empty.) -/
theorem cluster_snippets_partition {α : Type} (embed : String → Option (List α))
    (clusterAlg : List (List α) → Nat → Option (List Nat))
    (snippets : List SnippetRecord) (n_clusters : Nat)
    (hlen : ∀ embs k ls, clusterAlg embs k = some ls → ls.length = embs.length) :
    (∀ i, (∃ p ∈ cluster_snippets embed clusterAlg snippets n_clusters, i ∈ p.2) ↔
        ∃ s, snippets.get? i = some s ∧ pyStrip s.text ≠ "" ∧
          (embed (pyStrip s.text)).isSome)
    ∧ (∀ p q, p ∈ cluster_snippets embed clusterAlg snippets n_clusters →
        q ∈ cluster_snippets embed clusterAlg snippets n_clusters → p ≠ q →
        ∀ i, i ∈ p.2 → i ∉ q.2)
    ∧ (validIndices embed snippets ≠ [] →
        min n_clusters (validIndices embed snippets).length ≤ 1 →
        cluster_snippets embed clusterAlg snippets n_clusters =
          [(0, validIndices embed snippets)])
    ∧ (∀ alg₁ alg₂ : List (List α) → Nat → Option (List Nat),
        min n_clusters (validIndices embed snippets).length ≤ 1 →
        cluster_snippets embed alg₁ snippets n_clusters =
          cluster_snippets embed alg₂ snippets n_clusters)
    ∧ (2 ≤ min n_clusters (validIndices embed snippets).length →
        clusterAlg (validEmbeddings embed snippets)
            (min n_clusters (validEmbeddings embed snippets).length) = none →
        cluster_snippets embed clusterAlg snippets n_clusters =
          [(0, validIndices embed snippets)]) := by
  refine ⟨?_, ?_, ?_, ?_, ?_⟩
  · intro i
    rw [show (∃ s, snippets.get? i = some s ∧ pyStrip s.text ≠ "" ∧
        (embed (pyStrip s.text)).isSome) ↔ i ∈ validIndices embed snippets from
      mem_validIndices.symm]
    rcases cluster_snippets_cases embed clusterAlg snippets n_clusters hlen with
      ⟨h1, h2⟩ | h | ⟨labels, hlab, h⟩
    · simp [h1, h2]
    · simp [h]
    · rw [h]
      have hsnd : ((labels.zip (validIndices embed snippets)).map Prod.snd) =
          validIndices embed snippets :=
        List.map_snd_zip _ _ (le_of_eq hlab.symm)
      constructor
      · rintro ⟨⟨l, xs⟩, hp, hi⟩
        have hx := lookupC_eq_of_mem hp (nodup_keys_buildClusters _)
        rw [lookupC_buildClusters] at hx
        rw [← hx] at hi
        have := mem_memberOf.mp hi
        rw [← hsnd]
        exact List.mem_map.mpr ⟨(l, i), this, rfl⟩
      · intro hi
        rw [← hsnd] at hi
        obtain ⟨⟨l, i'⟩, hp, hfst⟩ := List.mem_map.mp hi
        obtain rfl : i' = i := hfst
        have hkey : l ∈ (buildClusters
            (labels.zip (validIndices embed snippets))).map Prod.fst :=
          (mem_keys_buildClusters _ _).mpr (List.mem_map.mpr ⟨(l, i'), hp, rfl⟩)
        refine ⟨(l, lookupC (buildClusters (labels.zip (validIndices embed snippets))) l),
          pair_mem_of_mem_keys hkey, ?_⟩
        rw [lookupC_buildClusters]
        exact mem_memberOf.mpr hp
  · intro p q hp hq hpq i hip hiq
    rcases cluster_snippets_cases embed clusterAlg snippets n_clusters hlen with
      ⟨h1, h2⟩ | h | ⟨labels, hlab, h⟩
    · rw [h1] at hp
      cases hp
    · rw [h] at hp hq
      rw [List.mem_singleton.mp hp, List.mem_singleton.mp hq] at hpq
      exact hpq rfl
    · rw [h] at hp hq
      obtain ⟨l₁, xs⟩ := p
      obtain ⟨l₂, ys⟩ := q
      have hx := lookupC_eq_of_mem hp (nodup_keys_buildClusters _)
      have hy := lookupC_eq_of_mem hq (nodup_keys_buildClusters _)
      rcases eq_or_ne l₁ l₂ with rfl | hne
      · exact hpq (by rw [← hx, ← hy])
      · rw [lookupC_buildClusters] at hx hy
        rw [← hx] at hip
        rw [← hy] at hiq
        have h₁ := mem_memberOf.mp hip
        have h₂ := mem_memberOf.mp hiq
        have hsnd : ((labels.zip (validIndices embed snippets)).map Prod.snd) =
            validIndices embed snippets :=
          List.map_snd_zip _ _ (le_of_eq hlab.symm)
        have hnd : ((labels.zip (validIndices embed snippets)).map Prod.snd).Nodup := by
          rw [hsnd]
          exact validIndices_nodup embed snippets
        exact hne (fst_eq_of_mem_nodup_snd h₁ h₂ hnd)
  · intro hne hk
    have hE : (validEmbeddings embed snippets).isEmpty = false := by
      rw [Bool.eq_false_iff]
      intro hc
      exact hne ((validEmbeddings_isEmpty_iff embed snippets).mp hc)
    unfold cluster_snippets
    rw [validEmbeddings_length]
    simp [hE, hk]
  · intro alg₁ alg₂ hk
    by_cases hE : (validEmbeddings embed snippets).isEmpty = true
    · unfold cluster_snippets
      simp [hE]
    · unfold cluster_snippets
      rw [validEmbeddings_length]
      simp [hE, hk]
  · intro h2 halg
    have hvlen : 2 ≤ (validIndices embed snippets).length := le_trans h2 (min_le_right _ _)
    have hE : (validEmbeddings embed snippets).isEmpty = false := by
      rw [Bool.eq_false_iff]
      intro hc
      have := (validEmbeddings_isEmpty_iff embed snippets).mp hc
      rw [this] at hvlen
      simp at hvlen
    have hk : ¬ min n_clusters (validEmbeddings embed snippets).length ≤ 1 := by
      rw [validEmbeddings_length]
      omega
    unfold cluster_snippets
    simp [hE, hk, halg]

/-- C3 counterexample to the claim as stated: with one snippet whose embedding
fails, `k = min(1, 0) = 0 ≤ 1`, yet `cluster_snippets` returns the empty
mapping — zero clusters — and not the claimed single cluster with label 0
holding all (here: no) successfully embedded indices. -/
theorem cluster_snippets_empty_embed_cex :
    min 1 (validIndices (α := Int) (fun _ => none) [⟨"d", "some text", "c"⟩]).length ≤ 1
    ∧ cluster_snippets (α := Int) (fun _ => none) (fun _ _ => none)
        [⟨"d", "some text", "c"⟩] 1 = []
    ∧ (cluster_snippets (α := Int) (fun _ => none) (fun _ _ => none)
        [⟨"d", "some text", "c"⟩] 1).length = 0
    ∧ cluster_snippets (α := Int) (fun _ => none) (fun _ _ => none)
        [⟨"d", "some text", "c"⟩] 1 ≠
      [(0, validIndices (α := Int) (fun _ => none) [⟨"d", "some text", "c"⟩])] := by
  refine ⟨by decide, by decide, by decide, by decide⟩

theorem cluster_snippets_partition_witness :
    cluster_snippets (α := Int) (fun _ => some [0]) (fun _ _ => none)
      [⟨"d", "a", "c"⟩] 1 =
      [(0, validIndices (α := Int) (fun _ => some [0]) [⟨"d", "a", "c"⟩])] :=
  (cluster_snippets_partition (fun _ => some [0]) (fun _ _ => none)
    [⟨"d", "a", "c"⟩] 1 (fun _ _ _ h => by cases h)).2.2.1 (by decide) (by decide)

theorem one_le_nClustersFor (m : Nat) : 1 ≤ nClustersFor m :=
  le_min (le_max_left 1 (m / 3)) (by norm_num)

theorem nClustersFor_le_four (m : Nat) : nClustersFor m ≤ 4 :=
  min_le_right _ 4

theorem keys_lt_cluster_snippets {α : Type} (embed : String → Option (List α))
    (clusterAlg : List (List α) → Nat → Option (List Nat))
    (snippets : List SnippetRecord) (n_clusters : Nat)
    (hlab : ∀ embs k ls, clusterAlg embs k = some ls → ∀ l ∈ ls, l < k) :
    ∀ l ∈ (cluster_snippets embed clusterAlg snippets n_clusters).map Prod.fst,
      l < max 1 n_clusters := by
  unfold cluster_snippets
  split
  · simp
  · split
    · intro l hl
      simp only [List.map_cons, List.map_nil, List.mem_singleton] at hl
      subst hl
      exact lt_of_lt_of_le Nat.one_pos (le_max_left 1 n_clusters)
    · split
      · intro l hl
        simp only [List.map_cons, List.map_nil, List.mem_singleton] at hl
        subst hl
        exact lt_of_lt_of_le Nat.one_pos (le_max_left 1 n_clusters)
      · next labels heq =>
        intro l hl
        rw [mem_keys_buildClusters] at hl
        obtain ⟨⟨l', i⟩, hp, rfl⟩ := List.mem_map.mp hl
        have hl1 : l' ∈ labels := (List.of_mem_zip hp).1
        have hlt := hlab _ _ _ heq l' hl1
        exact lt_of_lt_of_le hlt
          (le_trans (min_le_left _ _) (le_max_right 1 n_clusters))

/-- C1: `identify_and_summarize_themes` returns no themes exactly on empty
input, and between 1 and 4 themes (inclusive) on any non-empty input, under
the clustering library's contract that each returned label is below the
requested cluster count. -/
theorem theme_count_bound {α : Type} (embed : String → Option (List α))
    (clusterAlg : List (List α) → Nat → Option (List Nat))
    (summarize : List SnippetRecord → Nat → String → Option Theme)
    (snippets : List SnippetRecord) (question : String)
    (hlab : ∀ embs k ls, clusterAlg embs k = some ls → ∀ l ∈ ls, l < k) :
    (snippets = [] →
      identify_and_summarize_themes embed clusterAlg summarize snippets question = [])
    ∧ (snippets ≠ [] →
      1 ≤ (identify_and_summarize_themes embed clusterAlg summarize snippets question).length
      ∧ (identify_and_summarize_themes embed clusterAlg summarize
          snippets question).length ≤ 4) := by
  constructor
  · rintro rfl
    rfl
  · intro hne
    have hlen0 : ¬ snippets.length = 0 := by
      simpa [List.length_eq_zero] using hne
    unfold identify_and_summarize_themes
    by_cases hcm : (cluster_snippets embed clusterAlg snippets
        (nClustersFor snippets.length)).isEmpty = true
    · simp [hlen0, hcm]
    · simp only [hlen0, if_false, hcm, Bool.false_eq_true, List.length_map]
      rw [(List.perm_insertionSort (· ≤ ·) _).length_eq, List.length_map]
      have hnil : cluster_snippets embed clusterAlg snippets
          (nClustersFor snippets.length) ≠ [] := by
        intro hc
        rw [hc] at hcm
        exact hcm rfl
      constructor
      · exact List.length_pos.mpr hnil
      · have hnodup := nodup_keys_cluster_snippets embed clusterAlg snippets
          (nClustersFor snippets.length)
        have hlt : ∀ l ∈ (cluster_snippets embed clusterAlg snippets
            (nClustersFor snippets.length)).map Prod.fst, l < 4 := by
          intro l hl
          have h1 := keys_lt_cluster_snippets embed clusterAlg snippets
            (nClustersFor snippets.length) hlab l hl
          rw [Nat.max_eq_right (one_le_nClustersFor snippets.length)] at h1
          exact lt_of_lt_of_le h1 (nClustersFor_le_four snippets.length)
        have hcard : ((cluster_snippets embed clusterAlg snippets
            (nClustersFor snippets.length)).map Prod.fst).length ≤ 4 := by
          calc ((cluster_snippets embed clusterAlg snippets
                (nClustersFor snippets.length)).map Prod.fst).length
              = ((cluster_snippets embed clusterAlg snippets
                (nClustersFor snippets.length)).map Prod.fst).toFinset.card :=
                (List.toFinset_card_of_nodup hnodup).symm
            _ ≤ (Finset.range 4).card := Finset.card_le_card fun x hx =>
                Finset.mem_range.mpr (hlt x (List.mem_toFinset.mp hx))
            _ = 4 := Finset.card_range 4
        rw [List.length_map] at hcard
        exact hcard

theorem theme_count_bound_witness :
    1 ≤ (identify_and_summarize_themes (α := Int) (fun _ => some [0]) (fun _ _ => none)
        (fun _ _ _ => none) [⟨"d", "a", "c"⟩] "q").length
    ∧ (identify_and_summarize_themes (α := Int) (fun _ => some [0]) (fun _ _ => none)
        (fun _ _ _ => none) [⟨"d", "a", "c"⟩] "q").length ≤ 4 :=
  (theme_count_bound (fun _ => some [0]) (fun _ _ => none) (fun _ _ _ => none)
    [⟨"d", "a", "c"⟩] "q" (fun _ _ _ h => nomatch h)).2 (by decide)

/-- C5: on a non-empty cluster mapping, `identify_and_summarize_themes`
produces exactly the per-label themes of the mapping — one per cluster label,
iterated in strictly ascending label order (a permutation of the key list, so
no cluster is dropped) — and a cluster whose summarization raises gets the
substituted fallback theme `"Theme {label+1}"` with empty summary and that
cluster's member citations verbatim. -/
theorem themes_per_cluster {α : Type} (embed : String → Option (List α))
    (clusterAlg : List (List α) → Nat → Option (List Nat))
    (summarize : List SnippetRecord → Nat → String → Option Theme)
    (snippets : List SnippetRecord) (question : String)
    (hne : snippets ≠ [])
    (hcm : cluster_snippets embed clusterAlg snippets (nClustersFor snippets.length) ≠ []) :
    identify_and_summarize_themes embed clusterAlg summarize snippets question =
      (List.insertionSort (· ≤ ·)
          ((cluster_snippets embed clusterAlg snippets
            (nClustersFor snippets.length)).map Prod.fst)).map
        (themeOf summarize
          (cluster_snippets embed clusterAlg snippets (nClustersFor snippets.length))
          snippets question)
    ∧ (List.insertionSort (· ≤ ·)
        ((cluster_snippets embed clusterAlg snippets
          (nClustersFor snippets.length)).map Prod.fst)).Perm
        ((cluster_snippets embed clusterAlg snippets
          (nClustersFor snippets.length)).map Prod.fst)
    ∧ List.Sorted (· < ·) (List.insertionSort (· ≤ ·)
        ((cluster_snippets embed clusterAlg snippets
          (nClustersFor snippets.length)).map Prod.fst))
    ∧ (identify_and_summarize_themes embed clusterAlg summarize snippets question).length =
        (cluster_snippets embed clusterAlg snippets (nClustersFor snippets.length)).length
    ∧ ∀ label ∈ (cluster_snippets embed clusterAlg snippets
        (nClustersFor snippets.length)).map Prod.fst,
        summarize (memberSnippets (cluster_snippets embed clusterAlg snippets
          (nClustersFor snippets.length)) snippets label) (label + 1) question = none →
        themeOf summarize (cluster_snippets embed clusterAlg snippets
            (nClustersFor snippets.length)) snippets question label =
          ⟨"Theme " ++ toString (label + 1), "",
            (memberSnippets (cluster_snippets embed clusterAlg snippets
              (nClustersFor snippets.length)) snippets label).map (·.citation)⟩ := by
  have hlen0 : ¬ snippets.length = 0 := by
    simpa [List.length_eq_zero] using hne
  have hE : (cluster_snippets embed clusterAlg snippets
      (nClustersFor snippets.length)).isEmpty = false := by
    rw [Bool.eq_false_iff]
    intro hc
    exact hcm (List.isEmpty_iff.mp hc)
  have heq : identify_and_summarize_themes embed clusterAlg summarize snippets question =
      (List.insertionSort (· ≤ ·)
          ((cluster_snippets embed clusterAlg snippets
            (nClustersFor snippets.length)).map Prod.fst)).map
        (themeOf summarize
          (cluster_snippets embed clusterAlg snippets (nClustersFor snippets.length))
          snippets question) := by
    unfold identify_and_summarize_themes
    simp [hlen0, hE]
  refine ⟨heq, List.perm_insertionSort _ _, ?_, ?_, ?_⟩
  · refine List.Sorted.lt_of_le (List.sorted_insertionSort _ _) ?_
    exact (List.perm_insertionSort _ _).nodup_iff.mpr
      (nodup_keys_cluster_snippets embed clusterAlg snippets (nClustersFor snippets.length))
  · rw [heq, List.length_map, (List.perm_insertionSort (· ≤ ·) _).length_eq,
      List.length_map]
  · intro label hl hnone
    simp [themeOf, hnone]

theorem themes_per_cluster_witness :
    identify_and_summarize_themes (α := Int) (fun _ => some [0]) (fun _ _ => none)
        (fun _ _ _ => none) [⟨"d", "a", "c"⟩] "q" =
      (List.insertionSort (· ≤ ·)
          ((cluster_snippets (α := Int) (fun _ => some [0]) (fun _ _ => none)
            [⟨"d", "a", "c"⟩]
            (nClustersFor ([⟨"d", "a", "c"⟩] : List SnippetRecord).length)).map Prod.fst)).map
        (themeOf (fun _ _ _ => none)
          (cluster_snippets (α := Int) (fun _ => some [0]) (fun _ _ => none)
            [⟨"d", "a", "c"⟩]
            (nClustersFor ([⟨"d", "a", "c"⟩] : List SnippetRecord).length))
          [⟨"d", "a", "c"⟩] "q") :=
  (themes_per_cluster (fun _ => some [0]) (fun _ _ => none) (fun _ _ _ => none)
    [⟨"d", "a", "c"⟩] "q" (by decide) (by decide)).1
